import Mathlib

/-!
Verification development for the adaptive batch execution engine in
tradingagents/agents/portfolio_batch.py.

Modelling conventions:
- Python str is modelled as List Char; Python s.lower() as mapping
  Char.toLower; the Python substring test (needle in hay) as strIn.
- Python float (timestamps, delays, random.random()) is modelled as ℚ.
- Python dict is modelled as an ordered association list with
  overwrite-on-existing-key insertion (dictInsert), matching dict
  assignment semantics (insertion order kept, value replaced in place).
- time.time() and random.random() are modelled by threading an explicit
  clock and a stream of random draws; time.sleep(d) advances the clock
  by d.  Rounds of the thread pool are linearised: ledger updates in the
  source happen sequentially in the as_completed loop, and each external
  call consumes an oracle-given amount of wall-clock time.
-/

/-- Python str as a list of characters. -/
abbrev Str := List Char

/-- Check whether the first list occurs at the start of the second. -/
def strStarts : Str → Str → Bool
  | [], _ => true
  | _ :: _, [] => false
  | a :: as, b :: bs => a == b && strStarts as bs

/-- Python substring containment: strIn needle hay models (needle in hay). -/
def strIn (needle : Str) : Str → Bool
  | [] => strStarts needle []
  | c :: t => strStarts needle (c :: t) || strIn needle t

/-- Python str.lower() on the ASCII strings used by the classifier. -/
def strLower (s : Str) : Str := s.map Char.toLower

/-- Error classifier, translated from classify_error in portfolio_batch.py.
It is a total Lean function, hence side-effect free and never raising. -/
def classify_error (error_msg : Str) : Str :=
  let error_lower := strLower error_msg
  if strIn "throttlingexception".data error_lower ||
      strIn "too many tokens".data error_lower then
    "throttling".data
  else if strIn "timeout".data error_lower ||
      strIn "connection".data error_lower then
    "network".data
  else if strIn "invalid".data error_lower ||
      strIn "not found".data error_lower then
    "data".data
  else if strIn "permission".data error_lower ||
      strIn "access".data error_lower then
    "auth".data
  else
    "unknown".data

/-- RetryableTask dataclass from portfolio_batch.py. -/
structure RetryableTask where
  ticker : Str
  date : Str
  attempt : Nat := 0
  last_error : Str := []
  next_retry_time : ℚ := 0
deriving DecidableEq, Repr

/-- should_retry from the source: attempt < 3 and the case-sensitive
substring "ThrottlingException" occurring in last_error. -/
def RetryableTask.should_retry (t : RetryableTask) : Bool :=
  decide (t.attempt < 3) && strIn "ThrottlingException".data t.last_error

/-- Python max on two rationals, via decidable comparison so that it
computes in the kernel. -/
def qmax (a b : ℚ) : ℚ := if a ≤ b then b else a

/-- Python min on two rationals, via decidable comparison so that it
computes in the kernel. -/
def qmin (a b : ℚ) : ℚ := if a ≤ b then a else b

/-- Python 2 ** n on the rationals, written recursively so that it
computes in the kernel. -/
def pow2Q : Nat → ℚ
  | 0 => 1
  | n + 1 => 2 * pow2Q n

/-- calculate_next_retry from the source; now is the value of time.time()
and rand the value of random.random() at the call. -/
def RetryableTask.calculate_next_retry (t : RetryableTask) (now rand : ℚ) : ℚ :=
  let base_delay : ℚ := 30 * pow2Q t.attempt
  let jitter : ℚ := base_delay * (1 / 4) * (2 * rand - 1)
  let delay : ℚ := qmax 15 (base_delay + jitter)
  now + delay

/-- increment_attempt from the source: the attempt counter is bumped and
last_error set BEFORE calculate_next_retry reads self.attempt. -/
def RetryableTask.increment_attempt (t : RetryableTask) (error_msg : Str)
    (now rand : ℚ) : RetryableTask :=
  let t1 : RetryableTask := { t with attempt := t.attempt + 1, last_error := error_msg }
  { t1 with next_retry_time := t1.calculate_next_retry now rand }

/-- Keys of a Python dict modelled as an association list. -/
def dictKeys {α : Type} (d : List (Str × α)) : List Str := d.map Prod.fst

/-- Python dict assignment d[k] = v: replace in place when the key exists,
append otherwise. -/
def dictInsert {α : Type} (d : List (Str × α)) (k : Str) (v : α) :
    List (Str × α) :=
  if k ∈ dictKeys d then d.map (fun p => if p.1 = k then (k, v) else p)
  else d ++ [(k, v)]

/-- Python dict lookup d[k] (None when absent). -/
def dictGet {α : Type} (d : List (Str × α)) (k : Str) : Option α :=
  (d.find? (fun p => decide (p.1 = k))).map Prod.snd

/-- The success dict built by analyze_ticker_safe on the success path. -/
structure TickerSuccess where
  ticker : Str
  status : Str
  decision : Str
  report : Str
deriving DecidableEq, Repr

/-- The dict stored by add_permanent_failure:
a record with keys ticker, status, error. -/
def failRecord (ticker error : Str) : List (Str × Str) :=
  [("ticker".data, ticker), ("status".data, "error".data), ("error".data, error)]

/-- BatchAnalysisState dataclass from portfolio_batch.py. -/
structure BatchAnalysisState where
  successful : List (Str × TickerSuccess) := []
  failed : List (Str × List (Str × Str)) := []
  retry_queue : List RetryableTask := []
  total_tickers : Nat := 0
  completed_count : Nat := 0
deriving DecidableEq, Repr

/-- completion_rate property: guarded division. -/
def BatchAnalysisState.completion_rate (s : BatchAnalysisState) : ℚ :=
  if s.total_tickers = 0 then 1
  else (s.completed_count : ℚ) / (s.total_tickers : ℚ)

/-- is_complete property from the source (note: ledger sizes, with ≥). -/
def BatchAnalysisState.is_complete (s : BatchAnalysisState) : Bool :=
  decide (s.successful.length + s.failed.length ≥ s.total_tickers)

/-- add_success from the source. -/
def BatchAnalysisState.add_success (s : BatchAnalysisState) (ticker : Str)
    (result : TickerSuccess) : BatchAnalysisState :=
  { s with successful := dictInsert s.successful ticker result,
           completed_count := s.completed_count + 1 }

/-- add_retry from the source. -/
def BatchAnalysisState.add_retry (s : BatchAnalysisState)
    (task : RetryableTask) : BatchAnalysisState :=
  { s with retry_queue := s.retry_queue ++ [task] }

/-- add_permanent_failure from the source. -/
def BatchAnalysisState.add_permanent_failure (s : BatchAnalysisState)
    (ticker error : Str) : BatchAnalysisState :=
  { s with failed := dictInsert s.failed ticker (failRecord ticker error),
           completed_count := s.completed_count + 1 }

/-- Python list.remove: delete the first element equal to the argument
(no-op here on the empty list; the source never hits that case). -/
def pyRemove : List RetryableTask → RetryableTask → List RetryableTask
  | [], _ => []
  | a :: l, x => if a = x then l else a :: pyRemove l x

/-- get_ready_retries from the source: collect the ready tasks, then
remove each of them from the queue with list.remove. -/
def BatchAnalysisState.get_ready_retries (s : BatchAnalysisState) (now : ℚ) :
    List RetryableTask × BatchAnalysisState :=
  let ready_tasks := s.retry_queue.filter (fun task => decide (task.next_retry_time ≤ now))
  (ready_tasks,
   { s with retry_queue := List.foldl pyRemove s.retry_queue ready_tasks })

/-! ### Association-list (Python dict) lemmas -/

theorem dictKeys_append {α : Type} (d e : List (Str × α)) :
    dictKeys (d ++ e) = dictKeys d ++ dictKeys e := by
  simp [dictKeys]

theorem dictInsert_of_not_mem {α : Type} (d : List (Str × α)) (k : Str) (v : α)
    (h : k ∉ dictKeys d) : dictInsert d k v = d ++ [(k, v)] := by
  simp [dictInsert, h]

theorem dictGet_cons_self {α : Type} (d : List (Str × α)) (k : Str) (v : α) :
    dictGet ((k, v) :: d) k = some v := by
  unfold dictGet
  rw [List.find?_cons_of_pos]
  · rfl
  · simp

theorem dictGet_cons_of_ne {α : Type} (a : Str × α) (e : List (Str × α))
    (k : Str) (h : a.1 ≠ k) : dictGet (a :: e) k = dictGet e k := by
  unfold dictGet
  rw [List.find?_cons_of_neg]
  simp [h]

theorem dictKeys_cons {α : Type} (a : Str × α) (d : List (Str × α)) :
    dictKeys (a :: d) = a.1 :: dictKeys d := rfl

theorem dictGet_append_of_not_mem {α : Type} (d e : List (Str × α)) (k : Str)
    (h : k ∉ dictKeys d) : dictGet (d ++ e) k = dictGet e k := by
  induction d with
  | nil => rfl
  | cons a d ih =>
      have hne : a.1 ≠ k := by
        intro hk
        exact h (by rw [dictKeys_cons, hk]; exact List.mem_cons_self _ _)
      have hd : k ∉ dictKeys d := by
        intro hk
        exact h (by rw [dictKeys_cons]; exact List.mem_cons_of_mem _ hk)
      rw [List.cons_append, dictGet_cons_of_ne a _ k hne]
      exact ih hd

theorem dictGet_map_replace {α : Type} (d : List (Str × α)) (k : Str) (v : α)
    (h : k ∈ dictKeys d) :
    dictGet (d.map (fun p => if p.1 = k then (k, v) else p)) k = some v := by
  induction d with
  | nil => exact absurd h (List.not_mem_nil k)
  | cons a d ih =>
      rw [List.map_cons]
      by_cases hk : a.1 = k
      · rw [if_pos hk]
        exact dictGet_cons_self _ k v
      · rw [if_neg hk, dictGet_cons_of_ne a _ k hk]
        apply ih
        rw [dictKeys_cons] at h
        rcases List.mem_cons.mp h with h1 | h2
        · exact absurd h1.symm hk
        · exact h2

theorem dictGet_dictInsert {α : Type} (d : List (Str × α)) (k : Str) (v : α) :
    dictGet (dictInsert d k v) k = some v := by
  by_cases h : k ∈ dictKeys d
  · rw [dictInsert, if_pos h]
    exact dictGet_map_replace d k v h
  · rw [dictInsert_of_not_mem d k v h, dictGet_append_of_not_mem d _ k h,
      dictGet_cons_self]

/-! ### Claim C6: the error classifier -/

/-- C6: classify_error is total (a Lean function, hence no side effects and
no exceptions), returns exactly one of the five categories, and each
category is characterised by the case-insensitive substring rules applied
in priority order exactly as the claim lists them. -/
theorem C6_classifier_characterization (s : Str) :
    (classify_error s = "throttling".data ∨ classify_error s = "network".data ∨
      classify_error s = "data".data ∨ classify_error s = "auth".data ∨
      classify_error s = "unknown".data) ∧
    (classify_error s = "throttling".data ↔
      (strIn "throttlingexception".data (strLower s) ||
        strIn "too many tokens".data (strLower s)) = true) ∧
    (classify_error s = "network".data ↔
      ((strIn "throttlingexception".data (strLower s) ||
          strIn "too many tokens".data (strLower s)) = false ∧
        (strIn "timeout".data (strLower s) ||
          strIn "connection".data (strLower s)) = true)) ∧
    (classify_error s = "data".data ↔
      ((strIn "throttlingexception".data (strLower s) ||
          strIn "too many tokens".data (strLower s)) = false ∧
        (strIn "timeout".data (strLower s) ||
          strIn "connection".data (strLower s)) = false ∧
        (strIn "invalid".data (strLower s) ||
          strIn "not found".data (strLower s)) = true)) ∧
    (classify_error s = "auth".data ↔
      ((strIn "throttlingexception".data (strLower s) ||
          strIn "too many tokens".data (strLower s)) = false ∧
        (strIn "timeout".data (strLower s) ||
          strIn "connection".data (strLower s)) = false ∧
        (strIn "invalid".data (strLower s) ||
          strIn "not found".data (strLower s)) = false ∧
        (strIn "permission".data (strLower s) ||
          strIn "access".data (strLower s)) = true)) ∧
    (classify_error s = "unknown".data ↔
      ((strIn "throttlingexception".data (strLower s) ||
          strIn "too many tokens".data (strLower s)) = false ∧
        (strIn "timeout".data (strLower s) ||
          strIn "connection".data (strLower s)) = false ∧
        (strIn "invalid".data (strLower s) ||
          strIn "not found".data (strLower s)) = false ∧
        (strIn "permission".data (strLower s) ||
          strIn "access".data (strLower s)) = false)) := by
  by_cases h1 : (strIn "throttlingexception".data (strLower s) ||
      strIn "too many tokens".data (strLower s)) = true <;>
  by_cases h2 : (strIn "timeout".data (strLower s) ||
      strIn "connection".data (strLower s)) = true <;>
  by_cases h3 : (strIn "invalid".data (strLower s) ||
      strIn "not found".data (strLower s)) = true <;>
  by_cases h4 : (strIn "permission".data (strLower s) ||
      strIn "access".data (strLower s)) = true <;>
  simp [classify_error, h1, h2, h3, h4]

/-- C6 witness: the characterization instantiated at a concrete input. -/
theorem C6_classifier_characterization_witness :
    classify_error "Connection timeout".data = "network".data ∧
    (classify_error "Connection timeout".data = "network".data ↔
      ((strIn "throttlingexception".data (strLower "Connection timeout".data) ||
          strIn "too many tokens".data (strLower "Connection timeout".data)) = false ∧
        (strIn "timeout".data (strLower "Connection timeout".data) ||
          strIn "connection".data (strLower "Connection timeout".data)) = true)) :=
  ⟨by decide, (C6_classifier_characterization "Connection timeout".data).2.2.1⟩

/-! ### Claim C2: should_retry -/

/-- C2 counterexample: a task whose last_error is classified throttling and
whose attempt count is below 3, yet should_retry returns false, because the
source tests the case-sensitive substring "ThrottlingException" rather than
the classifier.  This refutes the claimed characterisation. -/
theorem C2_should_retry_counterexample :
    ({ ticker := "AAPL".data, date := "2025-01-26".data, attempt := 1,
       last_error := "too many tokens, please wait".data,
       next_retry_time := 0 } : RetryableTask).attempt < 3 ∧
    classify_error ("too many tokens, please wait".data) = "throttling".data ∧
    ({ ticker := "AAPL".data, date := "2025-01-26".data, attempt := 1,
       last_error := "too many tokens, please wait".data,
       next_retry_time := 0 } : RetryableTask).should_retry = false := by
  decide

/-- C2 amended: should_retry returns true iff attempt < 3 and the
case-sensitive substring "ThrottlingException" occurs in last_error; in
particular a task with attempt = 3 never retries, and a fresh task with
empty last_error is not retryable. -/
theorem C2_should_retry_amended (t : RetryableTask) :
    (t.should_retry =
      (decide (t.attempt < 3) && strIn "ThrottlingException".data t.last_error)) ∧
    (t.attempt = 3 → t.should_retry = false) ∧
    (t.last_error = [] → t.should_retry = false) := by
  refine ⟨rfl, ?_, ?_⟩
  · intro h
    simp [RetryableTask.should_retry, h]
  · intro h
    simp [RetryableTask.should_retry, h]
    intro h3
    decide

/-- C2 witness: the amended statement applied at attempt = 3. -/
theorem C2_should_retry_amended_witness :
    ({ ticker := "AAPL".data, date := "2025-01-26".data, attempt := 3,
       last_error := "ThrottlingException".data,
       next_retry_time := 0 } : RetryableTask).attempt = 3 ∧
    ({ ticker := "AAPL".data, date := "2025-01-26".data, attempt := 3,
       last_error := "ThrottlingException".data,
       next_retry_time := 0 } : RetryableTask).should_retry = false :=
  ⟨rfl, (C2_should_retry_amended _).2.1 rfl⟩

/-! ### Claim C3: backoff base delay -/

/-- C3: the code contradicts its own comment and unit test.  At the first
recorded failure (attempt becomes 1), increment_attempt bumps attempt
BEFORE calculate_next_retry reads it, so the base delay is
30 * 2 ^ 1 = 60 seconds, not 30 * 2 ^ 0 = 30.  With the neutral random
draw 1/2 (zero jitter) the computed delay from call time is exactly 60,
outside the claimed interval of [15, 50). -/
theorem C3_backoff_first_failure_delay :
    ((RetryableTask.increment_attempt
        { ticker := "AAPL".data, date := "2025-01-26".data }
        "ThrottlingException".data 0 (1 / 2)).next_retry_time - 0 = 60) ∧
    ¬ ((RetryableTask.increment_attempt
        { ticker := "AAPL".data, date := "2025-01-26".data }
        "ThrottlingException".data 0 (1 / 2)).next_retry_time - 0 < 50) := by
  with_unfolding_all decide

/-! ### Claim C5: contents of the failed ledger -/

/-- C5 counterexample: the record stored by add_permanent_failure has keys
ticker, status and error only; no field carries the classifier category of
the message (here "data"), refuting the claim that the failed map stores
the error classification alongside the message. -/
theorem C5_failed_record_counterexample :
    dictGet ((BatchAnalysisState.mk [] [] [] 1 0).add_permanent_failure
        "X".data "Invalid ticker symbol".data).failed "X".data
      = some (failRecord "X".data "Invalid ticker symbol".data) ∧
    classify_error "Invalid ticker symbol".data = "data".data ∧
    (∀ p ∈ failRecord "X".data "Invalid ticker symbol".data,
      p.2 ≠ "data".data) ∧
    "error_classification".data ∉
      dictKeys (failRecord "X".data "Invalid ticker symbol".data) := by
  decide

/-- C5 amended: every entry recorded by add_permanent_failure carries the
ticker, the fixed status "error" and the original error message; the
classification is not stored (a caller can recompute it from the message). -/
theorem C5_failed_record_amended (st : BatchAnalysisState) (tk msg : Str) :
    dictGet (st.add_permanent_failure tk msg).failed tk
      = some (failRecord tk msg) ∧
    dictGet (failRecord tk msg) "status".data = some "error".data ∧
    dictGet (failRecord tk msg) "error".data = some msg ∧
    dictKeys (failRecord tk msg)
      = ["ticker".data, "status".data, "error".data] := by
  refine ⟨?_, rfl, rfl, rfl⟩
  exact dictGet_dictInsert st.failed tk (failRecord tk msg)

/-! ### Claim C10: completion_rate -/

/-- C10: completion_rate is total (never raises): it returns 1 when
total_tickers is 0, and completed_count / total_tickers otherwise. -/
theorem C10_completion_rate_guarded (st : BatchAnalysisState) :
    (st.total_tickers = 0 → st.completion_rate = 1) ∧
    (0 < st.total_tickers →
      st.completion_rate = (st.completed_count : ℚ) / (st.total_tickers : ℚ)) := by
  constructor
  · intro h
    simp [BatchAnalysisState.completion_rate, h]
  · intro h
    simp [BatchAnalysisState.completion_rate, Nat.pos_iff_ne_zero.mp h]

/-- C10 witness: the guarded division applied at a zero-ticker state. -/
theorem C10_completion_rate_witness :
    (BatchAnalysisState.mk [] [] [] 0 0).total_tickers = 0 ∧
    (BatchAnalysisState.mk [] [] [] 0 0).completion_rate = 1 :=
  ⟨rfl, (C10_completion_rate_guarded _).1 rfl⟩

/-! ### Claim C9: get_ready_retries partitions the queue -/

theorem pyRemove_cons_of_ne (x t : RetryableTask) (l : List RetryableTask)
    (h : x ≠ t) : pyRemove (x :: l) t = x :: pyRemove l t := by
  simp [pyRemove, h]

/-- Removing a list of elements, none equal to the head, commutes with
keeping the head. -/
theorem foldl_pyRemove_cons (ts : List RetryableTask) (x : RetryableTask)
    (xs : List RetryableTask) (h : ∀ t ∈ ts, x ≠ t) :
    List.foldl pyRemove (x :: xs) ts = x :: List.foldl pyRemove xs ts := by
  induction ts generalizing xs with
  | nil => rfl
  | cons a ts ih =>
      rw [List.foldl_cons, List.foldl_cons,
        pyRemove_cons_of_ne x a xs (h a (List.mem_cons_self a ts))]
      exact ih _ (fun t ht => h t (List.mem_cons_of_mem a ht))

/-- Removing, in order, every element of filter p l from l by first
occurrence leaves exactly the elements failing p, in order.  This relies on
p being a function of the element value, which is what makes the source's
remove-by-equality loop safe. -/
theorem foldl_pyRemove_filter (p : RetryableTask → Bool) (l : List RetryableTask) :
    List.foldl pyRemove l (l.filter p) = l.filter (fun x => !p x) := by
  induction l with
  | nil => rfl
  | cons x xs ih =>
      by_cases hx : p x
      · rw [List.filter_cons_of_pos hx, List.foldl_cons]
        have hrem : pyRemove (x :: xs) x = xs := by simp [pyRemove]
        rw [hrem, ih, List.filter_cons_of_neg (by simp [hx])]
      · have hfil : (x :: xs).filter p = xs.filter p :=
          List.filter_cons_of_neg (by simp [hx])
        have hne : ∀ t ∈ xs.filter p, x ≠ t := by
          intro t ht hxt
          rw [hxt] at hx
          exact hx (List.of_mem_filter ht)
        rw [hfil, foldl_pyRemove_cons _ x xs hne, ih,
          List.filter_cons_of_pos (by simp [hx])]

/-- C9: get_ready_retries returns exactly the tasks whose next_retry_time
has passed (in queue order), removes exactly those from the queue leaving
the rest in their original relative order, and leaves the ledgers and
counters untouched. -/
theorem C9_get_ready_retries_partition (st : BatchAnalysisState) (now : ℚ) :
    (st.get_ready_retries now).1 =
      st.retry_queue.filter (fun task => decide (task.next_retry_time ≤ now)) ∧
    ((st.get_ready_retries now).2).retry_queue =
      st.retry_queue.filter (fun task => !decide (task.next_retry_time ≤ now)) ∧
    ((st.get_ready_retries now).2).successful = st.successful ∧
    ((st.get_ready_retries now).2).failed = st.failed ∧
    ((st.get_ready_retries now).2).completed_count = st.completed_count ∧
    ((st.get_ready_retries now).2).total_tickers = st.total_tickers :=
  ⟨rfl, foldl_pyRemove_filter _ st.retry_queue, rfl, rfl, rfl, rfl⟩

/-- C9 witness: the partition applied to a concrete two-task queue. -/
theorem C9_get_ready_retries_witness :
    ((BatchAnalysisState.mk [] [] [
        { ticker := "AAPL".data, date := "d".data, attempt := 1,
          last_error := [], next_retry_time := 5 },
        { ticker := "MSFT".data, date := "d".data, attempt := 1,
          last_error := [], next_retry_time := 90 }] 2 0).get_ready_retries 10).1
      = [{ ticker := "AAPL".data, date := "d".data, attempt := 1,
           last_error := [], next_retry_time := 5 }] ∧
    (((BatchAnalysisState.mk [] [] [
        { ticker := "AAPL".data, date := "d".data, attempt := 1,
          last_error := [], next_retry_time := 5 },
        { ticker := "MSFT".data, date := "d".data, attempt := 1,
          last_error := [], next_retry_time := 90 }] 2 0).get_ready_retries 10).2).retry_queue
      = [{ ticker := "MSFT".data, date := "d".data, attempt := 1,
           last_error := [], next_retry_time := 90 }] := by
  have h := C9_get_ready_retries_partition
    (BatchAnalysisState.mk [] [] [
        { ticker := "AAPL".data, date := "d".data, attempt := 1,
          last_error := [], next_retry_time := 5 },
        { ticker := "MSFT".data, date := "d".data, attempt := 1,
          last_error := [], next_retry_time := 90 }] 2 0) 10
  refine ⟨?_, ?_⟩
  · rw [h.1]
    with_unfolding_all decide
  · rw [h.2.1]
    with_unfolding_all decide

/-! ### Claim C8: ledger invariants across state updates -/

/-- The state built at the start of run_batch_analysis_with_retry:
a fresh BatchAnalysisState with total_tickers set to the input length. -/
def initialState (tickers : List Str) : BatchAnalysisState :=
  { total_tickers := tickers.length }

/-- States reachable by the updates the orchestrator performs during a
batch run over the given input list.  The freshness side conditions on
add_success / add_permanent_failure record that in a run over unique
item_ids each item is resolved at most once (an item leaves the retry
queue before being resolved, and is never resubmitted after resolution). -/
inductive RunReachable (tickers : List Str) : BatchAnalysisState → Prop
  | init : RunReachable tickers (initialState tickers)
  | add_success (st : BatchAnalysisState) (tk : Str) (v : TickerSuccess) :
      RunReachable tickers st → tk ∈ tickers →
      tk ∉ dictKeys st.successful ++ dictKeys st.failed →
      RunReachable tickers (st.add_success tk v)
  | add_failure (st : BatchAnalysisState) (tk e : Str) :
      RunReachable tickers st → tk ∈ tickers →
      tk ∉ dictKeys st.successful ++ dictKeys st.failed →
      RunReachable tickers (st.add_permanent_failure tk e)
  | add_retry (st : BatchAnalysisState) (task : RetryableTask) :
      RunReachable tickers st → RunReachable tickers (st.add_retry task)
  | get_ready (st : BatchAnalysisState) (now : ℚ) :
      RunReachable tickers st → RunReachable tickers ((st.get_ready_retries now).2)

theorem dictKeys_length {α : Type} (d : List (Str × α)) :
    (dictKeys d).length = d.length := by
  simp [dictKeys]

/-- Main invariant of reachable states: exact completion accounting, no
key in both ledgers, all keys drawn from the input, and the recorded
total. -/
theorem runReachable_inv {tickers : List Str} {st : BatchAnalysisState}
    (h : RunReachable tickers st) :
    st.completed_count = st.successful.length + st.failed.length ∧
    (dictKeys st.successful ++ dictKeys st.failed).Nodup ∧
    (∀ k ∈ dictKeys st.successful ++ dictKeys st.failed, k ∈ tickers) ∧
    st.total_tickers = tickers.length := by
  induction h with
  | init =>
      refine ⟨rfl, List.nodup_nil, ?_, rfl⟩
      intro k hk
      cases hk
  | add_success st tk v _ hmem hfresh ih =>
      obtain ⟨hcount, hnodup, hsub, htot⟩ := ih
      have hfs : tk ∉ dictKeys st.successful := fun hk =>
        hfresh (List.mem_append_left _ hk)
      have hins : dictInsert st.successful tk v = st.successful ++ [(tk, v)] :=
        dictInsert_of_not_mem _ tk v hfs
      have hkeys : dictKeys (dictInsert st.successful tk v)
          = dictKeys st.successful ++ [tk] := by
        rw [hins, dictKeys_append]; rfl
      have hperm : List.Perm
          ((dictKeys st.successful ++ [tk]) ++ dictKeys st.failed)
          (tk :: (dictKeys st.successful ++ dictKeys st.failed)) :=
        (List.perm_append_singleton tk _).append_right _
      refine ⟨?_, ?_, ?_, htot⟩
      · show st.completed_count + 1
            = (dictInsert st.successful tk v).length + st.failed.length
        rw [hins, List.length_append, hcount]
        simp [Nat.add_comm, Nat.add_assoc, Nat.add_left_comm]
      · show (dictKeys (dictInsert st.successful tk v) ++ dictKeys st.failed).Nodup
        rw [hkeys]
        exact (List.Perm.nodup_iff hperm).mpr (List.nodup_cons.mpr ⟨hfresh, hnodup⟩)
      · intro k hk
        have hk2 : k ∈ dictKeys (dictInsert st.successful tk v)
            ++ dictKeys st.failed := hk
        rw [hkeys] at hk2
        rcases List.mem_cons.mp ((hperm.mem_iff).mp hk2) with h1 | h2
        · exact h1 ▸ hmem
        · exact hsub k h2
  | add_failure st tk e _ hmem hfresh ih =>
      obtain ⟨hcount, hnodup, hsub, htot⟩ := ih
      have hff : tk ∉ dictKeys st.failed := fun hk =>
        hfresh (List.mem_append_right _ hk)
      have hins : dictInsert st.failed tk (failRecord tk e)
          = st.failed ++ [(tk, failRecord tk e)] :=
        dictInsert_of_not_mem _ tk _ hff
      have hkeys : dictKeys (dictInsert st.failed tk (failRecord tk e))
          = dictKeys st.failed ++ [tk] := by
        rw [hins, dictKeys_append]; rfl
      have hperm : List.Perm
          (dictKeys st.successful ++ (dictKeys st.failed ++ [tk]))
          (tk :: (dictKeys st.successful ++ dictKeys st.failed)) :=
        List.Perm.trans
          ((List.perm_append_singleton tk _).append_left _)
          List.perm_middle
      refine ⟨?_, ?_, ?_, htot⟩
      · show st.completed_count + 1
            = st.successful.length + (dictInsert st.failed tk (failRecord tk e)).length
        rw [hins, List.length_append, hcount]
        simp [Nat.add_comm, Nat.add_assoc, Nat.add_left_comm]
      · show (dictKeys st.successful
            ++ dictKeys (dictInsert st.failed tk (failRecord tk e))).Nodup
        rw [hkeys]
        exact (List.Perm.nodup_iff hperm).mpr (List.nodup_cons.mpr ⟨hfresh, hnodup⟩)
      · intro k hk
        have hk2 : k ∈ dictKeys st.successful
            ++ dictKeys (dictInsert st.failed tk (failRecord tk e)) := hk
        rw [hkeys] at hk2
        rcases List.mem_cons.mp ((hperm.mem_iff).mp hk2) with h1 | h2
        · exact h1 ▸ hmem
        · exact hsub k h2
  | add_retry st task _ ih => exact ih
  | get_ready st now _ ih => exact ih

/-- C8: in every run over unique item_ids, after every individual state
update the equation completed_count = |successful| + |failed| holds,
completed_count never decreases under any of the four updates, and
is_complete holds exactly when completed_count = total_tickers. -/
theorem C8_state_invariants {tickers : List Str} {st : BatchAnalysisState}
    (hnd : tickers.Nodup) (h : RunReachable tickers st) :
    st.completed_count = st.successful.length + st.failed.length ∧
    (∀ tk v, st.completed_count ≤ (st.add_success tk v).completed_count) ∧
    (∀ tk e, st.completed_count ≤ (st.add_permanent_failure tk e).completed_count) ∧
    (∀ task, st.completed_count ≤ (st.add_retry task).completed_count) ∧
    (∀ now, st.completed_count ≤ ((st.get_ready_retries now).2).completed_count) ∧
    (st.is_complete = true ↔ st.completed_count = st.total_tickers) := by
  obtain ⟨hcount, hnodup, hsub, htot⟩ := runReachable_inv h
  have hbound : st.successful.length + st.failed.length ≤ st.total_tickers := by
    have hlen : (dictKeys st.successful ++ dictKeys st.failed).length
        ≤ tickers.length :=
      (hnodup.subperm hsub).length_le
    rw [List.length_append, dictKeys_length, dictKeys_length] at hlen
    rw [htot]
    exact hlen
  refine ⟨hcount, ?_, ?_, ?_, ?_, ?_⟩
  · intro tk v
    exact Nat.le_succ _
  · intro tk e
    exact Nat.le_succ _
  · intro task
    exact Nat.le_refl _
  · intro now
    exact Nat.le_refl _
  · rw [BatchAnalysisState.is_complete, decide_eq_true_eq, ← hcount]
    constructor
    · intro hge
      exact Nat.le_antisymm (hcount ▸ hbound) hge
    · intro heq
      exact Nat.le_of_eq heq.symm

/-- C8 witness: the invariants applied to a concrete reachable state with
one success recorded out of two tickers. -/
theorem C8_state_invariants_witness :
    (["A".data, "B".data] : List Str).Nodup ∧
    (((initialState ["A".data, "B".data]).add_success "A".data
        (TickerSuccess.mk "A".data "success".data "BUY".data [])).completed_count
      = ((initialState ["A".data, "B".data]).add_success "A".data
          (TickerSuccess.mk "A".data "success".data "BUY".data [])).successful.length
        + ((initialState ["A".data, "B".data]).add_success "A".data
            (TickerSuccess.mk "A".data "success".data "BUY".data [])).failed.length) :=
  ⟨by decide,
    (C8_state_invariants (by decide)
      (RunReachable.add_success _ "A".data _ RunReachable.init (by decide)
        (by decide))).1⟩

/-! ### The orchestrator run_batch_analysis_with_retry

The thread pool is linearised: within a round the items are processed in
submission order, each external call advancing the clock by an
oracle-given duration.  This is one admissible completion order of the
source's as_completed loop, whose ledger updates are sequential. -/

/-- Outcome of one invocation of graph.propagate: a normal return or an
exception with its message. -/
inductive AnalyzeOutcome where
  | ok (decision report : Str)
  | exn (msg : Str)
deriving DecidableEq, Repr

/-- Oracles for a run: propagate gives the outcome of the k-th invocation
for a ticker (k = number of earlier, necessarily failed, invocations),
dur the wall-clock duration of the i-th external call of the run, and
rand the stream of random.random() draws. -/
structure Env where
  propagate : Str → Nat → AnalyzeOutcome
  dur : Nat → ℚ
  rand : Nat → ℚ

/-- Result dict of analyze_ticker_safe from the source. -/
inductive TickerResult where
  | success (ticker decision report : Str)
  | failure (ticker msg classification : Str) (retryable : Bool)
deriving DecidableEq, Repr

/-- analyze_ticker_safe from the source: catch everything, classify
failures and mark retryable exactly when classified throttling. -/
def analyze_ticker_safe (env : Env) (ticker : Str) (k : Nat) : TickerResult :=
  match env.propagate ticker k with
  | .ok d r => .success ticker d r
  | .exn m =>
      .failure ticker m (classify_error m)
        (decide (classify_error m = "throttling".data))

/-- Mutable context of a run: the batch state, the clock (time.time()),
and cursors into the duration and randomness streams. -/
structure RunState where
  st : BatchAnalysisState
  clock : ℚ
  callIdx : Nat
  randIdx : Nat
deriving Repr

/-- Processing of one completed future in _run_single_batch_round. -/
def stepInitial (env : Env) (date : Str) (rs : RunState) (ticker : Str) :
    RunState :=
  let rs1 : RunState :=
    { rs with clock := rs.clock + env.dur rs.callIdx, callIdx := rs.callIdx + 1 }
  match analyze_ticker_safe env ticker 0 with
  | .success tk d r =>
      { rs1 with st := rs1.st.add_success tk (TickerSuccess.mk tk "success".data d r) }
  | .failure tk m _ retryable =>
      if retryable then
        let task := (RetryableTask.mk tk date 0 [] 0).increment_attempt m
          rs1.clock (env.rand rs1.randIdx)
        { rs1 with st := rs1.st.add_retry task, randIdx := rs1.randIdx + 1 }
      else
        { rs1 with st := rs1.st.add_permanent_failure tk m }

/-- _run_single_batch_round from the source, linearised over the tickers. -/
def runSingleBatchRound (env : Env) (date : Str) (tickers : List Str)
    (rs : RunState) : RunState :=
  List.foldl (stepInitial env date) rs tickers

/-- Processing of one completed future in _run_retry_round.  Note that
should_retry is consulted on the task BEFORE increment_attempt, so it
reads the previous last_error together with the current attempt count. -/
def stepRetry (env : Env) (rs : RunState) (task : RetryableTask) : RunState :=
  let rs1 : RunState :=
    { rs with clock := rs.clock + env.dur rs.callIdx, callIdx := rs.callIdx + 1 }
  match analyze_ticker_safe env task.ticker task.attempt with
  | .success tk d r =>
      { rs1 with st := rs1.st.add_success tk (TickerSuccess.mk tk "success".data d r) }
  | .failure tk m _ retryable =>
      if retryable && task.should_retry then
        let task1 := task.increment_attempt m rs1.clock (env.rand rs1.randIdx)
        { rs1 with st := rs1.st.add_retry task1, randIdx := rs1.randIdx + 1 }
      else
        { rs1 with st := rs1.st.add_permanent_failure tk m }

/-- _run_retry_round from the source, linearised over the ready tasks. -/
def runRetryRound (env : Env) (tasks : List RetryableTask) (rs : RunState) :
    RunState :=
  List.foldl (stepRetry env) rs tasks

/-- Python min over a list of floats (only applied to nonempty lists). -/
def listMin : List ℚ → ℚ
  | [] => 0
  | [x] => x
  | x :: y :: t => qmin x (listMin (y :: t))

/-- The inner wait loop of the orchestrator: poll get_ready_retries; when
nothing is ready sleep min(wait_time, 10) and poll again.  Returns the
ready tasks, the new run state and the list of sleep durations; none on
fuel exhaustion.  The source loop has no deadline check here. -/
def waitReady : Nat → RunState → Option (List RetryableTask × RunState × List ℚ)
  | 0, _ => none
  | n + 1, rs =>
      if rs.st.retry_queue.isEmpty then some ([], rs, [])
      else
        let pair := rs.st.get_ready_retries rs.clock
        let rs1 : RunState := { rs with st := pair.2 }
        if pair.1.isEmpty then
          let next_retry :=
            listMin (pair.2.retry_queue.map RetryableTask.next_retry_time)
          let wait_time := next_retry - rs1.clock
          if 0 < wait_time then
            let slp := qmin wait_time 10
            match waitReady n { rs1 with clock := rs1.clock + slp } with
            | none => none
            | some (rdy, rs2, sleeps) => some (rdy, rs2, slp :: sleeps)
          else
            waitReady n rs1
        else some (pair.1, rs1, [])

/-- Information logged about one executed retry round: the worker count
used, the elapsed time when its outer loop iteration started, and the
elapsed time when the round itself was invoked. -/
structure RoundInfo where
  workers : Nat
  iterStartElapsed : ℚ
  startElapsed : ℚ
deriving DecidableEq, Repr

/-- Result of the retry loop: final run state, current_workers,
retry_round counter, the executed retry rounds and the sleeps performed. -/
structure LoopOut where
  rs : RunState
  current_workers : Nat
  retry_round : Nat
  rounds : List RoundInfo
  sleeps : List ℚ
deriving Repr

/-- The retry while-loop of run_batch_analysis_with_retry.  The loop
guard re-checks completion, elapsed time and queue emptiness; after a
round only the post-round timeout check (strict >) can break out. -/
def retryLoop (env : Env) (t0 mtt : ℚ) :
    Nat → RunState → Nat → Nat → Option LoopOut
  | 0, _, _, _ => none
  | n + 1, rs, cw, rr =>
      if rs.st.is_complete || decide (mtt ≤ rs.clock - t0) ||
          rs.st.retry_queue.isEmpty then
        some ⟨rs, cw, rr, [], []⟩
      else
        match waitReady n rs with
        | none => none
        | some (ready, rs1, sleeps1) =>
          if ready.isEmpty then
            if decide (mtt < rs1.clock - t0) then
              some ⟨rs1, cw, rr + 1, [], sleeps1⟩
            else
              match retryLoop env t0 mtt n rs1 cw (rr + 1) with
              | none => none
              | some out =>
                  some ⟨out.rs, out.current_workers, out.retry_round,
                        out.rounds, sleeps1 ++ out.sleeps⟩
          else
            let cw1 := max 1 (cw / 2)
            let round : RoundInfo := ⟨cw1, rs.clock - t0, rs1.clock - t0⟩
            let rs2 := runRetryRound env ready rs1
            if decide (mtt < rs2.clock - t0) then
              some ⟨rs2, cw1, rr + 1, [round], sleeps1⟩
            else
              match retryLoop env t0 mtt n rs2 cw1 (rr + 1) with
              | none => none
              | some out =>
                  some ⟨out.rs, out.current_workers, out.retry_round,
                        round :: out.rounds, sleeps1 ++ out.sleeps⟩

/-- The final cleanup of the orchestrator: move every task still in the
retry queue into the failed ledger. -/
def drainFold (st : BatchAnalysisState) (ts : List RetryableTask) :
    BatchAnalysisState :=
  List.foldl
    (fun s task => s.add_permanent_failure task.ticker
      ("Max retries exceeded: ".data ++ task.last_error))
    st ts

/-- drainFold applied to the state's own queue, as in the source (the
iteration is over a queue that add_permanent_failure never modifies). -/
def drainQueue (st : BatchAnalysisState) : BatchAnalysisState :=
  drainFold st st.retry_queue

/-- retry_stats dict of the returned result. -/
structure RetryStats where
  total_rounds : Nat
  total_time : ℚ
  final_workers : Nat
deriving DecidableEq, Repr

/-- The dict returned by run_batch_analysis_with_retry (retry_stats is
absent on the empty-input early return). -/
structure RunResult where
  successful : List (Str × TickerSuccess)
  failed : List (Str × List (Str × Str))
  retry_stats : Option RetryStats
deriving Repr

instance : Inhabited RunResult := ⟨⟨[], [], none⟩⟩

/-- Instrumentation of a run kept alongside the returned dict: the retry
rounds executed, the sleeps performed, and the retry queue as it stood
when the loop exited (before the final drain). -/
structure RunLog where
  retryRounds : List RoundInfo
  sleeps : List ℚ
  exitQueue : List RetryableTask
deriving Repr

instance : Inhabited RunLog := ⟨⟨[], [], []⟩⟩

/-- run_batch_analysis_with_retry from the source, as a fueled function:
none means the fuel did not cover the run; some is a completed return.
t0 is the value of time.time() at start. -/
def run_batch_analysis_with_retry (env : Env) (tickers : List Str)
    (date : Str) (max_workers : Nat) (max_total_time t0 : ℚ) (fuel : Nat) :
    Option (RunResult × RunLog) :=
  if tickers.isEmpty then some (⟨[], [], none⟩, ⟨[], [], []⟩)
  else
    let rs0 : RunState := ⟨initialState tickers, t0, 0, 0⟩
    let rs1 := runSingleBatchRound env date tickers rs0
    match retryLoop env t0 max_total_time fuel rs1 max_workers 0 with
    | none => none
    | some out =>
        let final := drainQueue out.rs.st
        some (⟨final.successful, final.failed,
               some ⟨out.retry_round + 1, out.rs.clock - t0, out.current_workers⟩⟩,
              ⟨out.rounds, out.sleeps, out.rs.st.retry_queue⟩)

/-- Totalised projection of a run used to state theorems: the default
value (empty result and log) when the fuel ran out. -/
def runOut (env : Env) (tickers : List Str) (date : Str) (max_workers : Nat)
    (max_total_time t0 : ℚ) (fuel : Nat) : RunResult × RunLog :=
  (run_batch_analysis_with_retry env tickers date max_workers max_total_time
    t0 fuel).getD (default, default)

/-! ### Key accounting for the orchestrator proofs -/

/-- All item identifiers currently accounted for in a state: keys of the
success ledger, keys of the failure ledger, and tickers of queued tasks. -/
def keyList (st : BatchAnalysisState) : List Str :=
  dictKeys st.successful ++ (dictKeys st.failed
    ++ st.retry_queue.map RetryableTask.ticker)

/-- The same accounting as a multiset, convenient for preservation
equations. -/
def keyMS (st : BatchAnalysisState) : Multiset Str := (keyList st : Multiset Str)

theorem keyMS_eq (st : BatchAnalysisState) :
    keyMS st = (dictKeys st.successful : Multiset Str)
      + (dictKeys st.failed : Multiset Str)
      + (st.retry_queue.map RetryableTask.ticker : Multiset Str) := by
  simp [keyMS, keyList, Multiset.coe_add, add_assoc]

theorem keyMS_add_success (st : BatchAnalysisState) (tk : Str)
    (v : TickerSuccess) (h : tk ∉ dictKeys st.successful) :
    keyMS (st.add_success tk v) = keyMS st + {tk} := by
  have h1 : (st.add_success tk v).successful = dictInsert st.successful tk v := rfl
  have h2 : (st.add_success tk v).failed = st.failed := rfl
  have h3 : (st.add_success tk v).retry_queue = st.retry_queue := rfl
  have hkeys : dictKeys (dictInsert st.successful tk v)
      = dictKeys st.successful ++ [tk] := by
    rw [dictInsert_of_not_mem _ tk v h, dictKeys_append]; rfl
  rw [keyMS_eq, keyMS_eq, h1, h2, h3, hkeys, ← Multiset.coe_add,
    Multiset.coe_singleton]
  abel

theorem keyMS_add_failure (st : BatchAnalysisState) (tk e : Str)
    (h : tk ∉ dictKeys st.failed) :
    keyMS (st.add_permanent_failure tk e) = keyMS st + {tk} := by
  have h1 : (st.add_permanent_failure tk e).successful = st.successful := rfl
  have h2 : (st.add_permanent_failure tk e).failed
      = dictInsert st.failed tk (failRecord tk e) := rfl
  have h3 : (st.add_permanent_failure tk e).retry_queue = st.retry_queue := rfl
  have hkeys : dictKeys (dictInsert st.failed tk (failRecord tk e))
      = dictKeys st.failed ++ [tk] := by
    rw [dictInsert_of_not_mem _ tk _ h, dictKeys_append]; rfl
  rw [keyMS_eq, keyMS_eq, h1, h2, h3, hkeys, ← Multiset.coe_add,
    Multiset.coe_singleton]
  abel

theorem keyMS_add_retry (st : BatchAnalysisState) (task : RetryableTask) :
    keyMS (st.add_retry task) = keyMS st + {task.ticker} := by
  have h1 : (st.add_retry task).successful = st.successful := rfl
  have h2 : (st.add_retry task).failed = st.failed := rfl
  have h3 : (st.add_retry task).retry_queue = st.retry_queue ++ [task] := rfl
  rw [keyMS_eq, keyMS_eq, h1, h2, h3, List.map_append, ← Multiset.coe_add]
  show _ + _ + (_ + (↑[task.ticker] : Multiset Str)) = _
  rw [Multiset.coe_singleton]
  abel

theorem keyMS_get_ready (st : BatchAnalysisState) (now : ℚ) :
    keyMS st = keyMS (st.get_ready_retries now).2
      + (((st.get_ready_retries now).1).map RetryableTask.ticker : Multiset Str) := by
  have h1 : ((st.get_ready_retries now).2).successful = st.successful := rfl
  have h2 : ((st.get_ready_retries now).2).failed = st.failed := rfl
  have hq : ((st.get_ready_retries now).2).retry_queue
      = st.retry_queue.filter
          (fun task => !decide (task.next_retry_time ≤ now)) :=
    foldl_pyRemove_filter _ st.retry_queue
  have hr : (st.get_ready_retries now).1
      = st.retry_queue.filter (fun task => decide (task.next_retry_time ≤ now)) := rfl
  have hperm : List.Perm
      (st.retry_queue.filter
          (fun task => !decide (task.next_retry_time ≤ now))
        ++ st.retry_queue.filter
          (fun task => decide (task.next_retry_time ≤ now)))
      st.retry_queue := by
    refine List.Perm.trans (List.perm_append_comm) ?_
    exact List.filter_append_perm _ st.retry_queue
  have hmaps : (st.retry_queue.map RetryableTask.ticker : Multiset Str)
      = ((st.retry_queue.filter
            (fun task => !decide (task.next_retry_time ≤ now))).map
              RetryableTask.ticker : Multiset Str)
        + ((st.retry_queue.filter
            (fun task => decide (task.next_retry_time ≤ now))).map
              RetryableTask.ticker : Multiset Str) := by
    rw [Multiset.coe_add, ← List.map_append, Multiset.coe_eq_coe]
    exact (hperm.map RetryableTask.ticker).symm
  rw [keyMS_eq, keyMS_eq, h1, h2, hq, hr, hmaps]
  abel

/-- Iterated halving of the worker count, floored at one: the worker
count before the (n+1)-st retry round. -/
def halveIter (W : Nat) : Nat → Nat
  | 0 => W
  | n + 1 => max 1 (halveIter W n / 2)

theorem halveIter_shift (W : Nat) (n : Nat) :
    halveIter (max 1 (W / 2)) n = halveIter W (n + 1) := by
  induction n with
  | zero => rfl
  | succ n ih => show max 1 (_ / 2) = max 1 (_ / 2); rw [ih]

theorem halveIter_pos (W : Nat) (n : Nat) (h : 0 < n) :
    1 ≤ halveIter W n := by
  cases n with
  | zero => cases h
  | succ n => exact Nat.le_max_left 1 _

theorem halve_lt (w : Nat) (h : 1 < w) : max 1 (w / 2) < w := by
  have hdiv : w / 2 < w := Nat.div_lt_self (Nat.lt_of_lt_of_le Nat.zero_lt_one h.le) Nat.one_lt_two
  exact max_lt h hdiv

/-! ### Round-level key accounting -/

theorem mem_keyMS_of_mem_succ (st : BatchAnalysisState) (tk : Str)
    (h : tk ∈ dictKeys st.successful) : tk ∈ keyMS st :=
  Multiset.mem_coe.mpr (List.mem_append_left _ h)

theorem mem_keyMS_of_mem_failed (st : BatchAnalysisState) (tk : Str)
    (h : tk ∈ dictKeys st.failed) : tk ∈ keyMS st :=
  Multiset.mem_coe.mpr (List.mem_append_right _ (List.mem_append_left _ h))

theorem fresh_of_nodup_add (M rest : Multiset Str) (tk : Str)
    (h : (M + (tk ::ₘ rest)).Nodup) : tk ∉ M := by
  rcases Multiset.nodup_add.mp h with ⟨-, -, hdisj⟩
  intro hm
  exact Multiset.disjoint_left.mp hdisj hm (Multiset.mem_cons_self tk rest)

theorem stepInitial_keyMS (env : Env) (date : Str) (rs : RunState) (t : Str)
    (hs : t ∉ dictKeys rs.st.successful) (hf : t ∉ dictKeys rs.st.failed) :
    keyMS (stepInitial env date rs t).st = keyMS rs.st + {t} ∧
    (stepInitial env date rs t).st.total_tickers = rs.st.total_tickers := by
  cases hp : env.propagate t 0 with
  | ok d r =>
      simp only [stepInitial, analyze_ticker_safe, hp]
      exact ⟨keyMS_add_success _ t _ hs, rfl⟩
  | exn m =>
      simp only [stepInitial, analyze_ticker_safe, hp]
      by_cases hc : classify_error m = "throttling".data
      · rw [if_pos (decide_eq_true hc)]
        exact ⟨keyMS_add_retry _ _, rfl⟩
      · rw [if_neg (fun hdd => hc (of_decide_eq_true hdd))]
        exact ⟨keyMS_add_failure _ t m hf, rfl⟩

theorem runSingleBatchRound_keyMS (env : Env) (date : Str) :
    ∀ (ts : List Str) (rs : RunState),
    (keyMS rs.st + (ts : Multiset Str)).Nodup →
    keyMS (runSingleBatchRound env date ts rs).st = keyMS rs.st + ↑ts ∧
    (runSingleBatchRound env date ts rs).st.total_tickers
      = rs.st.total_tickers := by
  intro ts
  induction ts with
  | nil =>
      intro rs _
      constructor
      · show keyMS rs.st = _
        simp
      · rfl
  | cons t ts ih =>
      intro rs h
      rw [← Multiset.cons_coe] at h
      have hfresh : t ∉ keyMS rs.st := fresh_of_nodup_add _ _ t h
      have hs : t ∉ dictKeys rs.st.successful := fun hk =>
        hfresh (mem_keyMS_of_mem_succ _ t hk)
      have hf : t ∉ dictKeys rs.st.failed := fun hk =>
        hfresh (mem_keyMS_of_mem_failed _ t hk)
      obtain ⟨hstep, htotstep⟩ := stepInitial_keyMS env date rs t hs hf
      have hnodup2 : (keyMS (stepInitial env date rs t).st
          + (ts : Multiset Str)).Nodup := by
        rw [hstep, add_assoc, Multiset.singleton_add]
        exact h
      obtain ⟨hrest, htotrest⟩ := ih (stepInitial env date rs t) hnodup2
      constructor
      · show keyMS (runSingleBatchRound env date ts (stepInitial env date rs t)).st = _
        rw [hrest, hstep, add_assoc, Multiset.singleton_add, Multiset.cons_coe]
      · show (runSingleBatchRound env date ts (stepInitial env date rs t)).st.total_tickers = _
        rw [htotrest, htotstep]

theorem increment_attempt_ticker (t : RetryableTask) (m : Str) (now rand : ℚ) :
    (t.increment_attempt m now rand).ticker = t.ticker := rfl

theorem stepRetry_keyMS (env : Env) (rs : RunState) (task : RetryableTask)
    (hs : task.ticker ∉ dictKeys rs.st.successful)
    (hf : task.ticker ∉ dictKeys rs.st.failed) :
    keyMS (stepRetry env rs task).st = keyMS rs.st + {task.ticker} ∧
    (stepRetry env rs task).st.total_tickers = rs.st.total_tickers := by
  cases hp : env.propagate task.ticker task.attempt with
  | ok d r =>
      simp only [stepRetry, analyze_ticker_safe, hp]
      exact ⟨keyMS_add_success _ task.ticker _ hs, rfl⟩
  | exn m =>
      simp only [stepRetry, analyze_ticker_safe, hp]
      by_cases hb : (decide (classify_error m = "throttling".data)
          && task.should_retry) = true
      · rw [if_pos hb]
        refine ⟨?_, rfl⟩
        rw [keyMS_add_retry, increment_attempt_ticker]
      · rw [if_neg hb]
        exact ⟨keyMS_add_failure _ task.ticker m hf, rfl⟩

theorem runRetryRound_keyMS (env : Env) :
    ∀ (tasks : List RetryableTask) (rs : RunState),
    (keyMS rs.st + (tasks.map RetryableTask.ticker : Multiset Str)).Nodup →
    keyMS (runRetryRound env tasks rs).st
      = keyMS rs.st + ↑(tasks.map RetryableTask.ticker) ∧
    (runRetryRound env tasks rs).st.total_tickers = rs.st.total_tickers := by
  intro tasks
  induction tasks with
  | nil =>
      intro rs _
      constructor
      · show keyMS rs.st = _
        simp
      · rfl
  | cons task tasks ih =>
      intro rs h
      rw [List.map_cons, ← Multiset.cons_coe] at h
      have hfresh : task.ticker ∉ keyMS rs.st := fresh_of_nodup_add _ _ _ h
      have hs : task.ticker ∉ dictKeys rs.st.successful := fun hk =>
        hfresh (mem_keyMS_of_mem_succ _ _ hk)
      have hf : task.ticker ∉ dictKeys rs.st.failed := fun hk =>
        hfresh (mem_keyMS_of_mem_failed _ _ hk)
      obtain ⟨hstep, htotstep⟩ := stepRetry_keyMS env rs task hs hf
      have hnodup2 : (keyMS (stepRetry env rs task).st
          + (tasks.map RetryableTask.ticker : Multiset Str)).Nodup := by
        rw [hstep, add_assoc, Multiset.singleton_add]
        exact h
      obtain ⟨hrest, htotrest⟩ := ih (stepRetry env rs task) hnodup2
      constructor
      · show keyMS (runRetryRound env tasks (stepRetry env rs task)).st = _
        rw [hrest, hstep, add_assoc, Multiset.singleton_add, List.map_cons,
          Multiset.cons_coe]
      · show (runRetryRound env tasks (stepRetry env rs task)).st.total_tickers = _
        rw [htotrest, htotstep]

theorem qmin_le_right (a b : ℚ) : qmin a b ≤ b := by
  unfold qmin
  split
  · assumption
  · exact le_refl b

theorem waitReady_spec :
    ∀ (n : Nat) (rs : RunState) (ready : List RetryableTask)
      (rs1 : RunState) (sleeps : List ℚ),
    waitReady n rs = some (ready, rs1, sleeps) →
    keyMS rs.st = keyMS rs1.st + (ready.map RetryableTask.ticker : Multiset Str) ∧
    rs1.st.total_tickers = rs.st.total_tickers ∧
    (∀ s ∈ sleeps, s ≤ 10) := by
  intro n
  induction n with
  | zero =>
      intro rs ready rs1 sleeps h
      exact absurd h (by simp [waitReady])
  | succ n ih =>
      intro rs ready rs1 sleeps h
      unfold waitReady at h
      by_cases hq : rs.st.retry_queue.isEmpty
      · rw [if_pos hq] at h
        simp only [Option.some.injEq, Prod.mk.injEq] at h
        obtain ⟨h1, h2, h3⟩ := h
        subst h1; subst h2; subst h3
        refine ⟨by simp, rfl, by intro s hs; cases hs⟩
      · rw [if_neg hq] at h
        dsimp only at h
        by_cases hrdy : ((rs.st.get_ready_retries rs.clock).1).isEmpty
        · rw [if_pos hrdy] at h
          have hempty : (rs.st.get_ready_retries rs.clock).1 = [] :=
            List.isEmpty_iff.mp hrdy
          have hbase : keyMS rs.st
              = keyMS ((rs.st.get_ready_retries rs.clock).2) := by
            have := keyMS_get_ready rs.st rs.clock
            rw [hempty] at this
            simpa using this
          by_cases hw : 0 < listMin
              (((rs.st.get_ready_retries rs.clock).2).retry_queue.map
                RetryableTask.next_retry_time) - rs.clock
          · rw [if_pos hw] at h
            cases hrec : waitReady n
                { st := (rs.st.get_ready_retries rs.clock).2,
                  clock := rs.clock + qmin (listMin
                    (((rs.st.get_ready_retries rs.clock).2).retry_queue.map
                      RetryableTask.next_retry_time) - rs.clock) 10,
                  callIdx := rs.callIdx, randIdx := rs.randIdx } with
            | none => rw [hrec] at h; cases h
            | some out =>
                obtain ⟨rdy2, rs2, sl2⟩ := out
                rw [hrec] at h
                simp only [Option.some.injEq, Prod.mk.injEq] at h
                obtain ⟨h1, h2, h3⟩ := h
                subst h1; subst h2; subst h3
                obtain ⟨hk, ht, hsl⟩ := ih _ _ _ _ hrec
                refine ⟨?_, ht, ?_⟩
                · rw [hbase]
                  exact hk
                · intro s hs
                  rcases List.mem_cons.mp hs with h1 | h2
                  · rw [h1]
                    exact qmin_le_right _ 10
                  · exact hsl s h2
          · rw [if_neg hw] at h
            obtain ⟨hk, ht, hsl⟩ := ih _ _ _ _ h
            refine ⟨?_, ht, hsl⟩
            rw [hbase]
            exact hk
        · rw [if_neg hrdy] at h
          simp only [Option.some.injEq, Prod.mk.injEq] at h
          obtain ⟨h1, h2, h3⟩ := h
          subst h1; subst h2; subst h3
          exact ⟨keyMS_get_ready rs.st rs.clock, rfl, by intro s hs; cases hs⟩

theorem retryLoop_spec (env : Env) (t0 mtt : ℚ) :
    ∀ (n : Nat) (rs : RunState) (cw rr : Nat) (out : LoopOut),
    retryLoop env t0 mtt n rs cw rr = some out →
    (keyMS rs.st).Nodup →
    keyMS out.rs.st = keyMS rs.st ∧
    out.rs.st.total_tickers = rs.st.total_tickers ∧
    (∃ k, out.rounds.map RoundInfo.workers
        = (List.range k).map (fun i => halveIter cw (i + 1)) ∧
      out.current_workers = halveIter cw k) ∧
    (∀ r ∈ out.rounds, r.iterStartElapsed < mtt) ∧
    (∀ s ∈ out.sleeps, s ≤ 10) := by
  intro n
  induction n with
  | zero =>
      intro rs cw rr out h _
      exact absurd h (by simp [retryLoop])
  | succ n ih =>
      intro rs cw rr out h hnod
      unfold retryLoop at h
      by_cases hg : (rs.st.is_complete || decide (mtt ≤ rs.clock - t0) ||
          rs.st.retry_queue.isEmpty) = true
      · rw [if_pos hg] at h
        simp only [Option.some.injEq] at h
        subst h
        refine ⟨rfl, rfl, ⟨0, rfl, rfl⟩, ?_, ?_⟩
        · intro r hr
          cases hr
        · intro s hs
          cases hs
      · rw [if_neg hg] at h
        have hlt : rs.clock - t0 < mtt := by
          simp only [Bool.or_eq_true, not_or] at hg
          exact lt_of_not_le (fun hle => hg.1.2 (decide_eq_true hle))
        cases hwr : waitReady n rs with
        | none => rw [hwr] at h; cases h
        | some w =>
            obtain ⟨ready, rs1, sleeps1⟩ := w
            rw [hwr] at h
            dsimp only at h
            obtain ⟨hk, htot1, hsl1⟩ := waitReady_spec n rs ready rs1 sleeps1 hwr
            by_cases hre : ready.isEmpty
            · rw [if_pos hre] at h
              have hkeq : keyMS rs1.st = keyMS rs.st := by
                rw [List.isEmpty_iff.mp hre] at hk
                simpa using hk.symm
              by_cases htm : mtt < rs1.clock - t0
              · rw [if_pos (decide_eq_true htm)] at h
                simp only [Option.some.injEq] at h
                subst h
                refine ⟨hkeq, htot1, ⟨0, rfl, rfl⟩, ?_, hsl1⟩
                intro r hr
                cases hr
              · rw [if_neg (fun hdd => htm (of_decide_eq_true hdd))] at h
                cases hrec : retryLoop env t0 mtt n rs1 cw (rr + 1) with
                | none => rw [hrec] at h; cases h
                | some out1 =>
                    rw [hrec] at h
                    simp only [Option.some.injEq] at h
                    subst h
                    obtain ⟨hk1, ht1, hex1, hrd1, hss1⟩ :=
                      ih rs1 cw (rr + 1) out1 hrec (hkeq ▸ hnod)
                    refine ⟨hk1.trans hkeq, ht1.trans htot1, hex1, hrd1, ?_⟩
                    intro s hs
                    rcases List.mem_append.mp hs with h1 | h2
                    · exact hsl1 s h1
                    · exact hss1 s h2
            · rw [if_neg hre] at h
              have hnodr : (keyMS rs1.st
                  + (ready.map RetryableTask.ticker : Multiset Str)).Nodup := by
                rw [← hk]
                exact hnod
              obtain ⟨hkr, htotr⟩ := runRetryRound_keyMS env ready rs1 hnodr
              have hk2 : keyMS (runRetryRound env ready rs1).st = keyMS rs.st := by
                rw [hkr, ← hk]
              have htot2 : (runRetryRound env ready rs1).st.total_tickers
                  = rs.st.total_tickers := htotr.trans htot1
              by_cases htm : mtt < (runRetryRound env ready rs1).clock - t0
              · rw [if_pos (decide_eq_true htm)] at h
                simp only [Option.some.injEq] at h
                subst h
                refine ⟨hk2, htot2, ⟨1, rfl, rfl⟩, ?_, hsl1⟩
                intro r hr
                rcases List.mem_singleton.mp hr with h1
                rw [h1]
                exact hlt
              · rw [if_neg (fun hdd => htm (of_decide_eq_true hdd))] at h
                cases hrec : retryLoop env t0 mtt n (runRetryRound env ready rs1)
                    (max 1 (cw / 2)) (rr + 1) with
                | none => rw [hrec] at h; cases h
                | some out1 =>
                    rw [hrec] at h
                    simp only [Option.some.injEq] at h
                    subst h
                    obtain ⟨hk1, ht1, ⟨k1, hmap1, hcw1⟩, hrd1, hss1⟩ :=
                      ih _ (max 1 (cw / 2)) (rr + 1) out1 hrec (hk2 ▸ hnod)
                    refine ⟨hk1.trans hk2, ht1.trans htot2, ?_, ?_, ?_⟩
                    · refine ⟨k1 + 1, ?_, ?_⟩
                      · show max 1 (cw / 2) :: out1.rounds.map RoundInfo.workers = _
                        rw [hmap1, List.range_succ_eq_map, List.map_cons,
                          List.map_map]
                        congr 1
                        refine List.map_congr_left ?_
                        intro i _
                        show halveIter (max 1 (cw / 2)) (i + 1)
                          = halveIter cw (i + 1 + 1)
                        exact halveIter_shift cw (i + 1)
                      · rw [hcw1]
                        exact halveIter_shift cw k1
                    · intro r hr
                      rcases List.mem_cons.mp hr with h1 | h2
                      · rw [h1]
                        exact hlt
                      · exact hrd1 r h2
                    · intro s hs
                      rcases List.mem_append.mp hs with h1 | h2
                      · exact hsl1 s h1
                      · exact hss1 s h2

/-! ### Final drain of the retry queue -/

theorem drainFold_spec :
    ∀ (ts : List RetryableTask) (st : BatchAnalysisState),
    (dictKeys st.failed ++ ts.map RetryableTask.ticker).Nodup →
    (drainFold st ts).successful = st.successful ∧
    (drainFold st ts).failed
      = st.failed ++ ts.map (fun task => (task.ticker,
          failRecord task.ticker
            ("Max retries exceeded: ".data ++ task.last_error))) ∧
    (drainFold st ts).retry_queue = st.retry_queue ∧
    (drainFold st ts).total_tickers = st.total_tickers := by
  intro ts
  induction ts with
  | nil =>
      intro st _
      exact ⟨rfl, by simp [drainFold], rfl, rfl⟩
  | cons task ts ih =>
      intro st h
      rcases List.nodup_append.mp h with ⟨hnf, hnrest, hdisj⟩
      have hfk : task.ticker ∉ dictKeys st.failed := fun hmem =>
        hdisj hmem (List.mem_cons_self _ _)
      have hins : dictInsert st.failed task.ticker
          (failRecord task.ticker
            ("Max retries exceeded: ".data ++ task.last_error))
          = st.failed ++ [(task.ticker,
              failRecord task.ticker
                ("Max retries exceeded: ".data ++ task.last_error))] :=
        dictInsert_of_not_mem _ _ _ hfk
      have hkeys1 : dictKeys (st.add_permanent_failure task.ticker
            ("Max retries exceeded: ".data ++ task.last_error)).failed
          = dictKeys st.failed ++ [task.ticker] := by
        show dictKeys (dictInsert st.failed task.ticker _) = _
        rw [hins, dictKeys_append]
        rfl
      have hnd1 : (dictKeys (st.add_permanent_failure task.ticker
            ("Max retries exceeded: ".data ++ task.last_error)).failed
          ++ ts.map RetryableTask.ticker).Nodup := by
        rw [hkeys1, List.append_assoc]
        exact h
      obtain ⟨ih1, ih2, ih3, ih4⟩ := ih _ hnd1
      have hfold : drainFold st (task :: ts)
          = drainFold (st.add_permanent_failure task.ticker
              ("Max retries exceeded: ".data ++ task.last_error)) ts := rfl
      refine ⟨?_, ?_, ?_, ?_⟩
      · rw [hfold, ih1]
        rfl
      · rw [hfold, ih2]
        show (dictInsert st.failed task.ticker _) ++ _ = _
        rw [hins, List.append_assoc]
        rfl
      · rw [hfold, ih3]
        rfl
      · rw [hfold, ih4]
        rfl

theorem dictGet_drain_map :
    ∀ (ts : List RetryableTask) (task : RetryableTask),
    (ts.map RetryableTask.ticker).Nodup → task ∈ ts →
    dictGet (ts.map (fun tk0 => (tk0.ticker,
        failRecord tk0.ticker
          ("Max retries exceeded: ".data ++ tk0.last_error)))) task.ticker
      = some (failRecord task.ticker
          ("Max retries exceeded: ".data ++ task.last_error)) := by
  intro ts
  induction ts with
  | nil =>
      intro task _ hmem
      cases hmem
  | cons a ts ih =>
      intro task hnd hmem
      rw [List.map_cons] at hnd
      rcases List.nodup_cons.mp hnd with ⟨hha, hht⟩
      rcases List.mem_cons.mp hmem with h1 | h2
      · subst h1
        exact dictGet_cons_self _ _ _
      · have hne : a.ticker ≠ task.ticker := fun he =>
          hha (he ▸ List.mem_map_of_mem RetryableTask.ticker h2)
        rw [List.map_cons, dictGet_cons_of_ne _ _ _ hne]
        exact ih task hht h2

/-! ### Log-only specification of the retry loop (no uniqueness needed) -/

theorem retryLoop_log_spec (env : Env) (t0 mtt : ℚ) :
    ∀ (n : Nat) (rs : RunState) (cw rr : Nat) (out : LoopOut),
    retryLoop env t0 mtt n rs cw rr = some out →
    (∃ k, out.rounds.map RoundInfo.workers
        = (List.range k).map (fun i => halveIter cw (i + 1)) ∧
      out.current_workers = halveIter cw k) ∧
    (∀ r ∈ out.rounds, r.iterStartElapsed < mtt) ∧
    (∀ s ∈ out.sleeps, s ≤ 10) := by
  intro n
  induction n with
  | zero =>
      intro rs cw rr out h
      exact absurd h (by simp [retryLoop])
  | succ n ih =>
      intro rs cw rr out h
      unfold retryLoop at h
      by_cases hg : (rs.st.is_complete || decide (mtt ≤ rs.clock - t0) ||
          rs.st.retry_queue.isEmpty) = true
      · rw [if_pos hg] at h
        simp only [Option.some.injEq] at h
        subst h
        refine ⟨⟨0, rfl, rfl⟩, ?_, ?_⟩
        · intro r hr
          cases hr
        · intro s hs
          cases hs
      · rw [if_neg hg] at h
        have hlt : rs.clock - t0 < mtt := by
          simp only [Bool.or_eq_true, not_or] at hg
          exact lt_of_not_le (fun hle => hg.1.2 (decide_eq_true hle))
        cases hwr : waitReady n rs with
        | none => rw [hwr] at h; cases h
        | some w =>
            obtain ⟨ready, rs1, sleeps1⟩ := w
            rw [hwr] at h
            dsimp only at h
            obtain ⟨-, -, hsl1⟩ := waitReady_spec n rs ready rs1 sleeps1 hwr
            by_cases hre : ready.isEmpty
            · rw [if_pos hre] at h
              by_cases htm : mtt < rs1.clock - t0
              · rw [if_pos (decide_eq_true htm)] at h
                simp only [Option.some.injEq] at h
                subst h
                refine ⟨⟨0, rfl, rfl⟩, ?_, hsl1⟩
                intro r hr
                cases hr
              · rw [if_neg (fun hdd => htm (of_decide_eq_true hdd))] at h
                cases hrec : retryLoop env t0 mtt n rs1 cw (rr + 1) with
                | none => rw [hrec] at h; cases h
                | some out1 =>
                    rw [hrec] at h
                    simp only [Option.some.injEq] at h
                    subst h
                    obtain ⟨hex1, hrd1, hss1⟩ := ih rs1 cw (rr + 1) out1 hrec
                    refine ⟨hex1, hrd1, ?_⟩
                    intro s hs
                    rcases List.mem_append.mp hs with h1 | h2
                    · exact hsl1 s h1
                    · exact hss1 s h2
            · rw [if_neg hre] at h
              by_cases htm : mtt < (runRetryRound env ready rs1).clock - t0
              · rw [if_pos (decide_eq_true htm)] at h
                simp only [Option.some.injEq] at h
                subst h
                refine ⟨⟨1, rfl, rfl⟩, ?_, hsl1⟩
                intro r hr
                rcases List.mem_singleton.mp hr with h1
                rw [h1]
                exact hlt
              · rw [if_neg (fun hdd => htm (of_decide_eq_true hdd))] at h
                cases hrec : retryLoop env t0 mtt n (runRetryRound env ready rs1)
                    (max 1 (cw / 2)) (rr + 1) with
                | none => rw [hrec] at h; cases h
                | some out1 =>
                    rw [hrec] at h
                    simp only [Option.some.injEq] at h
                    subst h
                    obtain ⟨⟨k1, hmap1, hcw1⟩, hrd1, hss1⟩ :=
                      ih _ (max 1 (cw / 2)) (rr + 1) out1 hrec
                    refine ⟨?_, ?_, ?_⟩
                    · refine ⟨k1 + 1, ?_, ?_⟩
                      · show max 1 (cw / 2) :: out1.rounds.map RoundInfo.workers = _
                        rw [hmap1, List.range_succ_eq_map, List.map_cons,
                          List.map_map]
                        congr 1
                        refine List.map_congr_left ?_
                        intro i _
                        show halveIter (max 1 (cw / 2)) (i + 1)
                          = halveIter cw (i + 1 + 1)
                        exact halveIter_shift cw (i + 1)
                      · rw [hcw1]
                        exact halveIter_shift cw k1
                    · intro r hr
                      rcases List.mem_cons.mp hr with h1 | h2
                      · rw [h1]
                        exact hlt
                      · exact hrd1 r h2
                    · intro s hs
                      rcases List.mem_append.mp hs with h1 | h2
                      · exact hsl1 s h1
                      · exact hss1 s h2

theorem dictKeys_drain_map (ts : List RetryableTask) :
    dictKeys (ts.map (fun tk0 => (tk0.ticker,
        failRecord tk0.ticker
          ("Max retries exceeded: ".data ++ tk0.last_error))))
      = ts.map RetryableTask.ticker := by
  simp [dictKeys, List.map_map, Function.comp]

/-! ### Claim C1: completeness of the outcome ledgers -/

/-- C1: for unique input tickers, whenever run_batch_analysis_with_retry
returns, every ticker is in exactly one outcome ledger: the ledger sizes
sum to the input size, no ticker is a key of both maps, and every task
still queued at loop exit was force-resolved into the failed ledger with
the max-retries message. -/
theorem C1_batch_completeness (env : Env) (tickers : List Str) (date : Str)
    (W : Nat) (mtt t0 : ℚ) (fuel : Nat)
    (hnd : tickers.Nodup)
    (hs : (run_batch_analysis_with_retry env tickers date W mtt t0 fuel).isSome
      = true) :
    ((runOut env tickers date W mtt t0 fuel).1).successful.length
      + ((runOut env tickers date W mtt t0 fuel).1).failed.length
      = tickers.length ∧
    (∀ k ∈ dictKeys ((runOut env tickers date W mtt t0 fuel).1).successful,
      k ∉ dictKeys ((runOut env tickers date W mtt t0 fuel).1).failed) ∧
    (∀ task ∈ ((runOut env tickers date W mtt t0 fuel).2).exitQueue,
      dictGet ((runOut env tickers date W mtt t0 fuel).1).failed task.ticker
        = some (failRecord task.ticker
            ("Max retries exceeded: ".data ++ task.last_error))) := by
  by_cases hE : tickers.isEmpty = true
  · have ht : tickers = [] := List.isEmpty_iff.mp hE
    subst ht
    refine ⟨rfl, ?_, ?_⟩
    · intro k hk
      cases hk
    · intro task htask
      cases htask
  · obtain ⟨res, heq⟩ := Option.isSome_iff_exists.mp hs
    have hro : runOut env tickers date W mtt t0 fuel = res := by
      simp [runOut, heq]
    rw [hro]
    unfold run_batch_analysis_with_retry at heq
    rw [if_neg hE] at heq
    dsimp only at heq
    cases hloop : retryLoop env t0 mtt fuel
        (runSingleBatchRound env date tickers
          ⟨initialState tickers, t0, 0, 0⟩) W 0 with
    | none => rw [hloop] at heq; cases heq
    | some out =>
        rw [hloop] at heq
        dsimp only at heq
        simp only [Option.some.injEq] at heq
        subst heq
        have h0 : keyMS (initialState tickers) = 0 := rfl
        have hnodup0 : (keyMS ((⟨initialState tickers, t0, 0, 0⟩ :
            RunState)).st + (tickers : Multiset Str)).Nodup := by
          show (keyMS (initialState tickers) + (tickers : Multiset Str)).Nodup
          rw [h0, zero_add]
          exact Multiset.coe_nodup.mpr hnd
        obtain ⟨hk1, -⟩ := runSingleBatchRound_keyMS env date tickers
          ⟨initialState tickers, t0, 0, 0⟩ hnodup0
        have hk1b : keyMS (runSingleBatchRound env date tickers
            ⟨initialState tickers, t0, 0, 0⟩).st = (tickers : Multiset Str) := by
          rw [hk1]
          show keyMS (initialState tickers) + _ = _
          rw [h0, zero_add]
        have hnod1 : (keyMS (runSingleBatchRound env date tickers
            ⟨initialState tickers, t0, 0, 0⟩).st).Nodup := by
          rw [hk1b]
          exact Multiset.coe_nodup.mpr hnd
        obtain ⟨hkOut, -, -, -, -⟩ := retryLoop_spec env t0 mtt fuel _ W 0 out
          hloop hnod1
        have hkOutb : keyMS out.rs.st = (tickers : Multiset Str) := by
          rw [hkOut, hk1b]
        have hklist : (keyList out.rs.st).Nodup := by
          have hms : (keyMS out.rs.st).Nodup := by
            rw [hkOutb]
            exact Multiset.coe_nodup.mpr hnd
          exact Multiset.coe_nodup.mp hms
        have hlen : (keyList out.rs.st).length = tickers.length := by
          have hc := congrArg Multiset.card hkOutb
          simpa [keyMS, Multiset.coe_card] using hc
        rcases List.nodup_append.mp hklist with ⟨hndS, hndFQ, hdisjS⟩
        rcases List.nodup_append.mp hndFQ with ⟨hndF, hndQ, hdisjF⟩
        obtain ⟨hd1, hd2, hd3, hd4⟩ := drainFold_spec out.rs.st.retry_queue
          out.rs.st hndFQ
        have hdq : drainQueue out.rs.st
            = drainFold out.rs.st out.rs.st.retry_queue := rfl
        have hlen2 : out.rs.st.successful.length
            + (out.rs.st.failed.length + out.rs.st.retry_queue.length)
            = tickers.length := by
          simpa [keyList, dictKeys] using hlen
        refine ⟨?_, ?_, ?_⟩
        · show (drainQueue out.rs.st).successful.length
            + (drainQueue out.rs.st).failed.length = tickers.length
          rw [hdq, hd1, hd2, List.length_append, List.length_map]
          omega
        · intro k hk hcontra
          have hk2 : k ∈ dictKeys out.rs.st.successful := by
            rw [hdq, hd1] at hk
            exact hk
          have hc2 : k ∈ dictKeys out.rs.st.failed
              ++ out.rs.st.retry_queue.map RetryableTask.ticker := by
            rw [hdq, hd2, dictKeys_append, dictKeys_drain_map] at hcontra
            exact hcontra
          exact hdisjS hk2 hc2
        · intro task htask
          have htask2 : task ∈ out.rs.st.retry_queue := htask
          have htkmem : task.ticker
              ∈ out.rs.st.retry_queue.map RetryableTask.ticker :=
            List.mem_map_of_mem RetryableTask.ticker htask2
          have hnotf : task.ticker ∉ dictKeys out.rs.st.failed := fun hm =>
            hdisjF hm htkmem
          show dictGet (drainQueue out.rs.st).failed task.ticker = _
          rw [hdq, hd2, dictGet_append_of_not_mem _ _ _ hnotf]
          exact dictGet_drain_map out.rs.st.retry_queue task hndQ htask2

/-! ### Claims C4 and C7: deadline behaviour and worker halving -/

/-- Witness environment: a single ticker that throttles on its first
invocation and succeeds on the second; zero-duration calls and neutral
jitter draws. -/
def envThrottleOnce : Env :=
  { propagate := fun _ k =>
      if k = 0 then .exn "ThrottlingException".data
      else .ok "BUY".data "ok".data,
    dur := fun _ => 0,
    rand := fun _ => 1 / 2 }

/-- Witness environment: ticker A succeeds, every other ticker raises a
non-retryable data error. -/
def envOneBadTicker : Env :=
  { propagate := fun t _ =>
      if t = "A".data then .ok "BUY".data "ok".data
      else .exn "Invalid ticker symbol".data,
    dur := fun _ => 0,
    rand := fun _ => 1 / 2 }

/-- C1 witness: a two-ticker run (one success, one data failure) returns
with both ledgers accounting for both tickers. -/
theorem C1_batch_completeness_witness :
    (["A".data, "B".data] : List Str).Nodup ∧
    (run_batch_analysis_with_retry envOneBadTicker ["A".data, "B".data]
      "d".data 4 1800 0 1).isSome = true ∧
    ((runOut envOneBadTicker ["A".data, "B".data] "d".data 4 1800 0 1).1).successful.length
      + ((runOut envOneBadTicker ["A".data, "B".data] "d".data 4 1800 0 1).1).failed.length
      = 2 :=
  ⟨by decide, by with_unfolding_all decide,
    (C1_batch_completeness envOneBadTicker ["A".data, "B".data] "d".data 4
      1800 0 1 (by decide) (by with_unfolding_all decide)).1⟩

/-- C4 counterexample: with deadline 30 s and a task whose retry window
opens at 60 s, the wait loop sleeps past the deadline and a retry round
is then still invoked at elapsed time 60 > 30, refuting the claim that
_run_retry_round is never invoked past the deadline and that the
orchestrator sleeps only until the deadline is reached. -/
theorem C4_deadline_counterexample :
    0 < ((runOut envThrottleOnce ["A".data] "d".data 4 30 0 40).2).retryRounds.length ∧
    30 < (((runOut envThrottleOnce ["A".data] "d".data 4 30 0 40).2).retryRounds.getD 0
        ⟨1, 0, 0⟩).startElapsed := by
  constructor
  · with_unfolding_all decide
  · with_unfolding_all decide

/-- C4 amended: every sleep of the wait loop is at most 10 seconds, and
the deadline is enforced at the start of each outer loop iteration (every
executed retry round belongs to an iteration entered before the
deadline); the wait loop itself however performs no deadline check, so a
round may still start after the deadline has passed. -/
theorem C4_deadline_amended (env : Env) (tickers : List Str) (date : Str)
    (W : Nat) (mtt t0 : ℚ) (fuel : Nat) :
    (∀ s ∈ ((runOut env tickers date W mtt t0 fuel).2).sleeps, s ≤ 10) ∧
    (∀ r ∈ ((runOut env tickers date W mtt t0 fuel).2).retryRounds,
      r.iterStartElapsed < mtt) := by
  cases hE0 : run_batch_analysis_with_retry env tickers date W mtt t0 fuel with
  | none =>
      have hro : runOut env tickers date W mtt t0 fuel = (default, default) := by
        simp [runOut, hE0]
      rw [hro]
      refine ⟨?_, ?_⟩
      · intro s hs
        cases hs
      · intro r hr
        cases hr
  | some res =>
      have hro : runOut env tickers date W mtt t0 fuel = res := by
        simp [runOut, hE0]
      rw [hro]
      unfold run_batch_analysis_with_retry at hE0
      by_cases hET : tickers.isEmpty = true
      · rw [if_pos hET] at hE0
        simp only [Option.some.injEq] at hE0
        subst hE0
        refine ⟨?_, ?_⟩
        · intro s hs
          cases hs
        · intro r hr
          cases hr
      · rw [if_neg hET] at hE0
        dsimp only at hE0
        cases hloop : retryLoop env t0 mtt fuel
            (runSingleBatchRound env date tickers
              ⟨initialState tickers, t0, 0, 0⟩) W 0 with
        | none => rw [hloop] at hE0; cases hE0
        | some out =>
            rw [hloop] at hE0
            dsimp only at hE0
            simp only [Option.some.injEq] at hE0
            subst hE0
            obtain ⟨-, hrd, hsl⟩ := retryLoop_log_spec env t0 mtt fuel _ W 0
              out hloop
            exact ⟨hsl, hrd⟩

/-- C4 witness: the amended statement applied to the throttle-once run,
whose wait loop sleeps six times for 10 seconds each. -/
theorem C4_deadline_amended_witness :
    (10 : ℚ) ∈ ((runOut envThrottleOnce ["A".data] "d".data 4 30 0 40).2).sleeps ∧
    (10 : ℚ) ≤ 10 :=
  ⟨by with_unfolding_all decide,
    (C4_deadline_amended envThrottleOnce ["A".data] "d".data 4 30 0 40).1 10
      (by with_unfolding_all decide)⟩

theorem getD_map_workers :
    ∀ (l : List RoundInfo) (i : Nat),
    (l.map RoundInfo.workers).getD i 1 = (l.getD i ⟨1, 0, 0⟩).workers := by
  intro l
  induction l with
  | nil => intro i; rfl
  | cons r l ih =>
      intro i
      cases i with
      | zero => rfl
      | succ i => exact ih i

theorem getD_range_map (k i : Nat) (f : Nat → Nat) (h : i < k) :
    ((List.range k).map f).getD i 1 = f i := by
  have hlen : i < ((List.range k).map f).length := by
    simpa using h
  rw [List.getD_eq_getElem _ _ hlen, List.getElem_map, List.getElem_range]

/-- C7: in every run, the i-th executed retry round (0-based) uses
halveIter W (i+1) workers; hence the first retry round uses
max 1 (W / 2), each subsequent round uses max 1 (previous / 2), the
count never drops below 1, and it strictly decreases whenever the
previous count exceeded 1. -/
theorem C7_backpressure_halving (env : Env) (tickers : List Str) (date : Str)
    (W : Nat) (mtt t0 : ℚ) (fuel : Nat) :
    (∀ i, i < ((runOut env tickers date W mtt t0 fuel).2).retryRounds.length →
      ((((runOut env tickers date W mtt t0 fuel).2).retryRounds.getD i
        ⟨1, 0, 0⟩).workers) = halveIter W (i + 1)) ∧
    (0 < ((runOut env tickers date W mtt t0 fuel).2).retryRounds.length →
      ((((runOut env tickers date W mtt t0 fuel).2).retryRounds.getD 0
        ⟨1, 0, 0⟩).workers) = max 1 (W / 2)) ∧
    (∀ i, i + 1 < ((runOut env tickers date W mtt t0 fuel).2).retryRounds.length →
      ((((runOut env tickers date W mtt t0 fuel).2).retryRounds.getD (i + 1)
        ⟨1, 0, 0⟩).workers)
        = max 1 (((((runOut env tickers date W mtt t0 fuel).2).retryRounds.getD i
            ⟨1, 0, 0⟩).workers) / 2)) ∧
    (∀ i, i < ((runOut env tickers date W mtt t0 fuel).2).retryRounds.length →
      1 ≤ ((((runOut env tickers date W mtt t0 fuel).2).retryRounds.getD i
        ⟨1, 0, 0⟩).workers)) ∧
    (∀ i, i + 1 < ((runOut env tickers date W mtt t0 fuel).2).retryRounds.length →
      1 < ((((runOut env tickers date W mtt t0 fuel).2).retryRounds.getD i
        ⟨1, 0, 0⟩).workers) →
      ((((runOut env tickers date W mtt t0 fuel).2).retryRounds.getD (i + 1)
        ⟨1, 0, 0⟩).workers)
        < ((((runOut env tickers date W mtt t0 fuel).2).retryRounds.getD i
            ⟨1, 0, 0⟩).workers)) := by
  have hA : ∀ i,
      i < ((runOut env tickers date W mtt t0 fuel).2).retryRounds.length →
      ((((runOut env tickers date W mtt t0 fuel).2).retryRounds.getD i
        ⟨1, 0, 0⟩).workers) = halveIter W (i + 1) := by
    cases hE0 : run_batch_analysis_with_retry env tickers date W mtt t0 fuel with
    | none =>
        have hro : runOut env tickers date W mtt t0 fuel = (default, default) := by
          simp [runOut, hE0]
        rw [hro]
        intro i hi
        exact absurd hi (by simp [default])
    | some res =>
        have hro : runOut env tickers date W mtt t0 fuel = res := by
          simp [runOut, hE0]
        rw [hro]
        unfold run_batch_analysis_with_retry at hE0
        by_cases hET : tickers.isEmpty = true
        · rw [if_pos hET] at hE0
          simp only [Option.some.injEq] at hE0
          subst hE0
          intro i hi
          exact absurd hi (by simp)
        · rw [if_neg hET] at hE0
          dsimp only at hE0
          cases hloop : retryLoop env t0 mtt fuel
              (runSingleBatchRound env date tickers
                ⟨initialState tickers, t0, 0, 0⟩) W 0 with
          | none => rw [hloop] at hE0; cases hE0
          | some out =>
              rw [hloop] at hE0
              dsimp only at hE0
              simp only [Option.some.injEq] at hE0
              subst hE0
              obtain ⟨⟨k, hmap, -⟩, -, -⟩ := retryLoop_log_spec env t0 mtt
                fuel _ W 0 out hloop
              intro i hi
              have hlenk : out.rounds.length = k := by
                have hc := congrArg List.length hmap
                simpa using hc
              have hik : i < k := by
                rw [← hlenk]
                exact hi
              have h1 := getD_map_workers out.rounds i
              rw [hmap] at h1
              rw [← h1, getD_range_map k i _ hik]
  refine ⟨hA, ?_, ?_, ?_, ?_⟩
  · intro h0
    exact hA 0 h0
  · intro i hi1
    have hi : i < ((runOut env tickers date W mtt t0 fuel).2).retryRounds.length :=
      Nat.lt_of_succ_lt hi1
    rw [hA (i + 1) hi1, hA i hi]
    rfl
  · intro i hi
    rw [hA i hi]
    exact halveIter_pos W (i + 1) (Nat.succ_pos i)
  · intro i hi1 hgt
    have hi : i < ((runOut env tickers date W mtt t0 fuel).2).retryRounds.length :=
      Nat.lt_of_succ_lt hi1
    rw [hA (i + 1) hi1, hA i hi] at *
    show max 1 (halveIter W (i + 1) / 2) < halveIter W (i + 1)
    exact halve_lt _ hgt

/-- C7 witness: the throttle-once run executes one retry round with
max 1 (4 / 2) = 2 workers. -/
theorem C7_backpressure_halving_witness :
    0 < ((runOut envThrottleOnce ["A".data] "d".data 4 1800 0 40).2).retryRounds.length ∧
    ((((runOut envThrottleOnce ["A".data] "d".data 4 1800 0 40).2).retryRounds.getD 0
      ⟨1, 0, 0⟩).workers) = halveIter 4 1 :=
  ⟨by with_unfolding_all decide,
    (C7_backpressure_halving envThrottleOnce ["A".data] "d".data 4 1800 0 40).1 0
      (by with_unfolding_all decide)⟩
